import Mathlib

/-!
Verification development for the `cacilhas/neuron` Go library.

A neuron is an ordered vector of integer genes (`type neuron []int`); the
network is a two-layer composition of neurons.  Go `int` values are modelled
as `Int`, Go `float64` values as `ℚ` (exact arithmetic), Go byte sequences as
`List Nat` whose elements are below 256, and Go strings as their byte lists.
Wherever Go truncates to a fixed-width machine type, the model applies the
corresponding `% 2 ^ w` explicitly.
-/

namespace Neuron

/-- Go strings are byte sequences; a name is modelled as its list of bytes. -/
abbrev Str := List Nat

/-- The unsigned 32-bit word `Marshal` writes for one gene:
`uint32(int64(0x100000000) + int64(gene))` when the gene is negative and
`uint32(gene)` otherwise; the Go conversion to `uint32` keeps the value
modulo `2 ^ 32`. -/
def geneWord (gene : Int) : Nat :=
  if gene < 0 then ((2 ^ 32 + gene) % (2 ^ 32)).toNat
  else (gene % (2 ^ 32)).toNat

/-- Bytes written by `binary.BigEndian.PutUint16` for `uint16(n)` (the cast
keeps `n` modulo `2 ^ 16`). -/
def be16 (n : Nat) : List Nat :=
  [n % 2 ^ 16 / 2 ^ 8, n % 2 ^ 8]

/-- Bytes written by `binary.BigEndian.PutUint32`: big-endian, each `byte`
conversion truncates modulo 256. -/
def be32 (w : Nat) : List Nat :=
  [w / 2 ^ 24 % 2 ^ 8, w / 2 ^ 16 % 2 ^ 8, w / 2 ^ 8 % 2 ^ 8, w % 2 ^ 8]

/-- The byte sequence streamed by `Marshal` (src/neuron/net.go): the gene
count as a big-endian `uint16`, then each gene as a big-endian 32-bit word. -/
def marshal (neu : List Int) : List Nat :=
  be16 neu.length ++ (neu.map fun g => be32 (geneWord g)).flatten

/-- One gene as read by `processBytes`: `binary.BigEndian.Uint32` of four
bytes, and words at or above `0x80000000` are shifted down by `0x100000000`.
The `% 2 ^ 8` normalisations record the Go `byte` type of the inputs. -/
def decodeWord (b0 b1 b2 b3 : Nat) : Int :=
  if b0 % 2 ^ 8 * 2 ^ 24 + b1 % 2 ^ 8 * 2 ^ 16 + b2 % 2 ^ 8 * 2 ^ 8 + b3 % 2 ^ 8 ≥ 2 ^ 31 then
    ((b0 % 2 ^ 8 * 2 ^ 24 + b1 % 2 ^ 8 * 2 ^ 16 + b2 % 2 ^ 8 * 2 ^ 8 + b3 % 2 ^ 8 : Nat) : Int) - 2 ^ 32
  else
    ((b0 % 2 ^ 8 * 2 ^ 24 + b1 % 2 ^ 8 * 2 ^ 16 + b2 % 2 ^ 8 * 2 ^ 8 + b3 % 2 ^ 8 : Nat) : Int)

/-- `processBytes` reads consecutive big-endian 32-bit words from the payload;
in Go it panics on a short final group, which the caller recovers and turns
into the decode error, so the model simply stops there (the caller checks the
length first). -/
def processBytes : List Nat → List Int
  | b0 :: b1 :: b2 :: b3 :: rest => decodeWord b0 b1 b2 b3 :: processBytes rest
  | _ => []

/-- `neuronFromBytes` (src/neuron/net.go): the first two bytes declare the
gene count (`binary.BigEndian.Uint16`); decoding fails when fewer than
`4 * size` payload bytes follow (the slice-bounds panic inside `processBytes`
is recovered and surfaced as an error, and no neuron is returned).  An input
of fewer than two bytes makes `binary.BigEndian.Uint16` itself panic in Go —
an uncaught crash; no claim below exercises that case. -/
def neuronFromBytes : List Nat → Except String (List Int)
  | b0 :: b1 :: body =>
    let size := b0 % 2 ^ 8 * 2 ^ 8 + b1 % 2 ^ 8
    if body.length < 4 * size then .error ("runtime error: index out of range")
    else .ok (processBytes (body.take (4 * size)))
  | _ => .error ("panic: short input")

/-- `Equals`: sizes match and all genes match positionally. -/
def equals (neu other : List Int) : Bool :=
  neu.length == other.length && (neu.zip other).all fun p => p.1 == p.2

/-- Spec-side definition (§6 of the spec): the big-endian two's-complement
32-bit representation of an integer, i.e. the four big-endian bytes of the
value modulo `2 ^ 32`. -/
def twosComplement32 (g : Int) : List Nat :=
  be32 ((g % (2 ^ 32)).toNat)

/-! ### base32hex text encoding (Go `encoding/base32`, `HexEncoding`, no padding) -/

/-- The eight 5-bit digits Go's base32 `Encode` derives from one source group
of five bytes.  A shorter final group behaves as the written prefix of a
zero-padded group, exactly as the `fallthrough` cases compute.  Go combines
disjoint bit fields with `|`; the model writes those fields as sums, and the
`% 2 ^ 8` normalisations record the `byte` type of the sources. -/
def encGroup (s0 s1 s2 s3 s4 : Nat) : List Nat :=
  [s0 % 2 ^ 8 / 2 ^ 3,
   s0 % 2 ^ 8 * 2 ^ 2 % 2 ^ 5 + s1 % 2 ^ 8 / 2 ^ 6 % 2 ^ 5,
   s1 % 2 ^ 8 / 2 % 2 ^ 5,
   s1 % 2 ^ 8 * 2 ^ 4 % 2 ^ 5 + s2 % 2 ^ 8 / 2 ^ 4 % 2 ^ 5,
   s2 % 2 ^ 8 * 2 % 2 ^ 5 + s3 % 2 ^ 8 / 2 ^ 7,
   s3 % 2 ^ 8 / 2 ^ 2 % 2 ^ 5,
   s3 % 2 ^ 8 * 2 ^ 3 % 2 ^ 5 + s4 % 2 ^ 8 / 2 ^ 5,
   s4 % 2 ^ 8 % 2 ^ 5]

/-- Go's base32 `Encode` loop: five source bytes become eight digits; a final
group of 1, 2, 3 or 4 bytes becomes `n * 8 / 5 + 1` digits, i.e. 2, 4, 5 or 7. -/
def encodeB32 : List Nat → List Nat
  | s0 :: s1 :: s2 :: s3 :: s4 :: rest => encGroup s0 s1 s2 s3 s4 ++ encodeB32 rest
  | [] => []
  | [s0] => (encGroup s0 0 0 0 0).take 2
  | [s0, s1] => (encGroup s0 s1 0 0 0).take 4
  | [s0, s1, s2] => (encGroup s0 s1 s2 0 0).take 5
  | [s0, s1, s2, s3] => (encGroup s0 s1 s2 s3 0).take 7

/-- The five bytes Go's base32 `decode` reassembles from eight digits
(`dbuf[0] = b[0]<<3 | b[1]>>2` and so on); the `% 2 ^ 8` is the `byte`
truncation of each assembled value. -/
def decGroup (d0 d1 d2 d3 d4 d5 d6 d7 : Nat) : List Nat :=
  [(d0 * 2 ^ 3 + d1 / 2 ^ 2) % 2 ^ 8,
   (d1 * 2 ^ 6 + d2 * 2 + d3 / 2 ^ 4) % 2 ^ 8,
   (d3 * 2 ^ 4 + d4 / 2) % 2 ^ 8,
   (d4 * 2 ^ 7 + d5 * 2 ^ 2 + d6 / 2 ^ 3) % 2 ^ 8,
   (d6 * 2 ^ 5 + d7) % 2 ^ 8]

/-- Go's unpadded base32 `decode` loop over 5-bit digit values: full groups of
eight digits yield five bytes; a final group of 2, 4, 5 or 7 digits yields
its `dlen * 5 / 8` leading bytes, and a final group of 1, 3 or 6 digits is a
`CorruptInputError`. -/
def decodeB32 : List Nat → Option (List Nat)
  | d0 :: d1 :: d2 :: d3 :: d4 :: d5 :: d6 :: d7 :: rest =>
    (decodeB32 rest).map fun tail => decGroup d0 d1 d2 d3 d4 d5 d6 d7 ++ tail
  | [] => some []
  | [d0, d1] => some ((decGroup d0 d1 0 0 0 0 0 0).take 1)
  | [d0, d1, d2, d3] => some ((decGroup d0 d1 d2 d3 0 0 0 0).take 2)
  | [d0, d1, d2, d3, d4] => some ((decGroup d0 d1 d2 d3 d4 0 0 0).take 3)
  | [d0, d1, d2, d3, d4, d5, d6] => some ((decGroup d0 d1 d2 d3 d4 d5 d6 0).take 4)
  | _ => none

/-- The base32hex alphabet `0123456789ABCDEFGHIJKLMNOPQRSTUV`, indexed by a
digit value below 32. -/
def digitChar (d : Nat) : Char :=
  if d < 10 then Char.ofNat (48 + d) else Char.ofNat (55 + d)

/-- The inverse alphabet lookup (Go's `decodeMap`); characters outside the
alphabet are decode errors. -/
def charDigit (c : Char) : Option Nat :=
  if 48 ≤ c.toNat ∧ c.toNat ≤ 57 then some (c.toNat - 48)
  else if 65 ≤ c.toNat ∧ c.toNat ≤ 86 then some (c.toNat - 55)
  else none

/-- The white-space code points recognised by `unicode.IsSpace` and hence
trimmed by `strings.TrimSpace`. -/
def isSpaceRune (c : Char) : Bool :=
  (9 ≤ c.toNat && c.toNat ≤ 13) || c.toNat == 32 || c.toNat == 133 ||
    c.toNat == 160 || c.toNat == 5760 || (8192 ≤ c.toNat && c.toNat ≤ 8202) ||
    c.toNat == 8232 || c.toNat == 8233 || c.toNat == 8239 || c.toNat == 8287 ||
    c.toNat == 12288

/-- `strings.TrimSpace`: drop white space from both ends. -/
def trimSpace (s : List Char) : List Char :=
  ((s.dropWhile isSpaceRune).reverse.dropWhile isSpaceRune).reverse

/-- `String()` (the spec's `toText`): the marshal byte stream encoded as
unpadded base32hex text. -/
def toText (neu : List Int) : List Char :=
  (encodeB32 (marshal neu)).map digitChar

/-- Each character mapped through the inverse alphabet, stopping at the first
character outside it, as Go's base32 `decode` does. -/
def charsToDigits : List Char → Option (List Nat)
  | [] => some []
  | c :: rest => (charDigit c).bind fun d => (charsToDigits rest).map fun ds => d :: ds

/-- The string arm of `NewNeuron`: trim white space, decode base32hex
(`DecodeString` first discards carriage returns and newlines, then maps each
character through the inverse alphabet and regroups the digits), and parse
the resulting bytes as a neuron. -/
def neuronFromText (s : List Char) : Except String (List Int) :=
  match (charsToDigits ((trimSpace s).filter fun c => c.toNat != 10 && c.toNat != 13)).bind
      decodeB32 with
  | none => .error ("illegal base32 data")
  | some bytes => neuronFromBytes bytes

/-! ### Neuron compute and mutation (src/neuron/net.go) -/

/-- Truncation toward zero: the semantics of Go's `int(sum)` conversion from
`float64`. -/
def truncQ (q : ℚ) : Int := if 0 ≤ q then ⌊q⌋ else ⌈q⌉

/-- The `sum += value * float64(gene)` loop of `Compute`, ranging over the
parameters paired with the genes; `float64` arithmetic is modelled exactly
over `ℚ`. -/
def dotSum (data : List ℚ) (neu : List Int) : ℚ :=
  (data.zip neu).foldl (fun sum p => sum + p.1 * (p.2 : ℚ)) 0

/-- The result of `Compute` once the arity check has passed: the weighted sum,
truncated toward zero if strictly positive and replaced by 0 otherwise. -/
def computeVal (neu : List Int) (data : List ℚ) : Int :=
  if 0 < dotSum data neu then truncQ (dotSum data neu) else 0

/-- `Compute`: panics (modelled `none`) unless exactly `size` parameters are
supplied; otherwise `computeVal`. -/
def compute (neu : List Int) (data : List ℚ) : Option Int :=
  if data.length ≠ neu.length then none
  else some (computeVal neu data)

/-- Go's conversion `int32(dev)`: two's-complement truncation to 32 bits. -/
def int32cast (n : Int) : Int := (n + 2 ^ 31) % 2 ^ 32 - 2 ^ 31

/-- `Child`: each gene becomes `value + int(rand.Int31n(int32(dev))) - dev/2`.
The random draws are supplied as an explicit oracle list; `rand.Int31n`
panics (`none`) when its `int32` argument is not positive, which happens on
the first loop iteration, so only a non-empty neuron panics.  `dev / 2` is
Go's division, truncated toward zero. -/
def child (neu : List Int) (dev : Int) (draws : List Int) : Option (List Int) :=
  if neu.length ≠ 0 ∧ int32cast dev ≤ 0 then none
  else some ((neu.zip draws).map fun p => p.1 + p.2 - Int.tdiv dev 2)

/-! ### NeuralNet (src/neuron/net.go and src/unnamed/part_003) -/

/-- The `neuralnet` struct: sorted action names, front layer, back layer,
sorted sensor names. -/
structure Neuralnet where
  actions : List Str
  frontNeuronSet : List (List Int)
  backNeuronSet : List (List Int)
  sensors : List Str
deriving DecidableEq

/-- `usort`: collect the distinct names (Go gathers the keys of a map) and
sort them with `sort.Strings`, i.e. lexicographic byte order — the order of
`Str`. -/
def usort (args : List Str) : List Str :=
  (args.dedup).insertionSort (· ≤ ·)

/-- `NewNeuralNet`: normalise the name lists and validate every invariant;
Go's error messages also name the offending neuron index. -/
def newNeuralNet (sensors actions : List Str) (front back : List (List Int)) :
    Except String Neuralnet :=
  if (usort sensors).length = 0 then .error ("no sensor supplied")
  else if (usort actions).length = 0 then .error ("no action supplied")
  else if front.length ≠ (usort actions).length then .error ("front neurons count mismatch")
  else if back.length ≠ (usort actions).length then .error ("back neurons count mismatch")
  else if !front.all (fun neu => neu.length == (usort sensors).length) then
    .error ("front neuron genes mismatch")
  else if !back.all (fun neu => neu.length == (usort actions).length) then
    .error ("back neuron genes mismatch")
  else .ok ⟨usort actions, front, back, usort sensors⟩

/-- `checkInput`: the incoming map must have exactly as many keys as there
are sensors, and every key must be a sensor name. -/
def checkInput (net : Neuralnet) (incoming : List (Str × ℚ)) : Except String Unit :=
  if incoming.length ≠ net.sensors.length then .error ("incoming mismatch sensors")
  else if incoming.all (fun kv => net.sensors.contains kv.1) then .ok ()
  else .error ("incoming mismatch sensors")

/-- A Go map read `incoming[sensor]`: the stored value, or the zero value
when the key is absent. -/
def lookupQ (incoming : List (Str × ℚ)) (key : Str) : ℚ :=
  match incoming.lookup key with
  | some v => v
  | none => 0

/-- One layer evaluated on a shared input vector; each neuron's arity panic
propagates (`none`). -/
def computeLayer : List (List Int) → List ℚ → Option (List Int)
  | [], _ => some []
  | neu :: rest, data =>
    (compute neu data).bind fun v => (computeLayer rest data).map fun vs => v :: vs

/-- `NeuralNet.Compute`: validate the input keys; evaluate every front neuron
on the inputs read in canonical sensor order, giving the middle vector;
evaluate every back neuron on the middle vector; and pair the i-th action
with `backNeuronSet[i].Compute(middle) > 0`.  The outer `Option` is the
neuron-level arity panic, never triggered by a validly constructed net. -/
def netCompute (net : Neuralnet) (incoming : List (Str × ℚ)) :
    Option (Except String (List (Str × Bool))) :=
  match checkInput net incoming with
  | .error e => some (.error e)
  | .ok _ =>
    match computeLayer net.frontNeuronSet (net.sensors.map (lookupQ incoming)) with
    | none => none
    | some middle =>
      match computeLayer net.backNeuronSet (middle.map fun v : Int => (v : ℚ)) with
      | none => none
      | some outs =>
        some (.ok (net.actions.zip (outs.map fun v => decide (0 < v))))

/-- Equality of `Except` results is decidable componentwise (used to evaluate
the loaders on concrete nets). -/
instance {e a : Type} [DecidableEq e] [DecidableEq a] : DecidableEq (Except e a) := fun x y =>
  match x, y with
  | .ok v, .ok w => if h : v = w then isTrue (by rw [h]) else isFalse (by simp [h])
  | .error v, .error w => if h : v = w then isTrue (by rw [h]) else isFalse (by simp [h])
  | .ok _, .error _ => isFalse (by simp)
  | .error _, .ok _ => isFalse (by simp)

/-- The name section payload written by `Save`: each name's raw bytes
followed by a NUL terminator. -/
def encodeNames (names : List Str) : List Nat :=
  (names.map fun name => name ++ [0]).flatten

/-- `Save` (src/unnamed/part_003): four sections, each a count written as a
big-endian `uint16` into a 4-byte scratch buffer whose last two bytes stay
zero, followed by the section payload; then a 4-byte zero trailer; and the
whole body prefixed by its length in the same 4-byte shape. -/
def saveBody (net : Neuralnet) : List Nat :=
  be16 net.sensors.length ++ [0, 0] ++ encodeNames net.sensors ++
    (be16 net.actions.length ++ [0, 0] ++ encodeNames net.actions ++
    (be16 net.frontNeuronSet.length ++ [0, 0] ++
      ((net.frontNeuronSet.map marshal).flatten ++
    (be16 net.backNeuronSet.length ++ [0, 0] ++
      ((net.backNeuronSet.map marshal).flatten ++ [0, 0, 0, 0])))))

/-- `Save` writes the body prefixed by its length in the same 4-byte shape. -/
def saveBytes (net : Neuralnet) : List Nat :=
  be16 (saveBody net).length ++ [0, 0] ++ saveBody net

/-- One `Read` call on a byte-list source into a zeroed buffer of `n` bytes:
an empty source with `n > 0` is `io.EOF`; otherwise up to `n` bytes are
taken and the rest of the buffer keeps its zeros (the loaders ignore the
returned byte count). -/
def readN (n : Nat) (input : List Nat) : Except String (List Nat × List Nat) :=
  if input.isEmpty ∧ n ≠ 0 then .error ("EOF")
  else .ok (input.take n ++ List.replicate (n - input.length) 0, input.drop n)

/-- One NUL-terminated name, read byte by byte by `loadStrings`; running out
of bytes before the terminator is `io.EOF`. -/
def parseCString (input : List Nat) : Except String (Str × List Nat) :=
  match input.dropWhile (fun b => b != 0) with
  | [] => .error ("EOF")
  | _ :: rest => .ok (input.takeWhile (fun b => b != 0), rest)

/-- The loop of `loadStrings`, reading `n` NUL-terminated names and stopping
at the first read error. -/
def parseCStrings : Nat → List Nat → Except String (List Str × List Nat)
  | 0, input => .ok ([], input)
  | n + 1, input =>
    match parseCString input with
    | .error e => .error e
    | .ok (name, rest) =>
      match parseCStrings n rest with
      | .error e => .error e
      | .ok (names, rest2) => .ok (name :: names, rest2)

/-- `loadStrings`: a 4-byte count field, of which only the first two bytes
form the big-endian count, then that many NUL-terminated names. -/
def loadStrings (input : List Nat) : Except String (List Str × List Nat) :=
  match readN 4 input with
  | .error e => .error e
  | .ok (buf, rest) =>
    parseCStrings (buf.getD 0 0 % 2 ^ 8 * 2 ^ 8 + buf.getD 1 0 % 2 ^ 8) rest

/-- `readFile`, the `io.Reader` arm of `NewNeuron`: read a 2-byte size, read
up to `4 * size` payload bytes into a zeroed buffer, and decode the
assembled `2 + 4 * size` bytes. -/
def readFile (input : List Nat) : Except String (List Int × List Nat) :=
  match readN 2 input with
  | .error e => .error e
  | .ok (buf, rest) =>
    match readN (4 * (buf.getD 0 0 % 2 ^ 8 * 2 ^ 8 + buf.getD 1 0 % 2 ^ 8)) rest with
    | .error e => .error e
    | .ok (body, rest2) =>
      match neuronFromBytes (buf ++ body) with
      | .error e => .error e
      | .ok genes => .ok (genes, rest2)

/-- The loop of `loadNeurons`, reading `n` neurons through `NewNeuron`. -/
def parseNeurons : Nat → List Nat → Except String (List (List Int) × List Nat)
  | 0, input => .ok ([], input)
  | n + 1, input =>
    match readFile input with
    | .error e => .error e
    | .ok (genes, rest) =>
      match parseNeurons n rest with
      | .error e => .error e
      | .ok (more, rest2) => .ok (genes :: more, rest2)

/-- `loadNeurons`: a 4-byte count field, then that many neuron encodings. -/
def loadNeurons (input : List Nat) : Except String (List (List Int) × List Nat) :=
  match readN 4 input with
  | .error e => .error e
  | .ok (buf, rest) =>
    parseNeurons (buf.getD 0 0 % 2 ^ 8 * 2 ^ 8 + buf.getD 1 0 % 2 ^ 8) rest

/-- `LoadNet` (src/unnamed/part_003): discard the 4-byte length header, read
sensors, actions, front and back layers, and re-run the full construction
validation of `NewNeuralNet`. -/
def loadNet (input : List Nat) : Except String Neuralnet :=
  match readN 4 input with
  | .error e => .error e
  | .ok (_, rest) =>
    match loadStrings rest with
    | .error e => .error e
    | .ok (sensors, rest1) =>
      match loadStrings rest1 with
      | .error e => .error e
      | .ok (actions, rest2) =>
        match loadNeurons rest2 with
        | .error e => .error e
        | .ok (front, rest3) =>
          match loadNeurons rest3 with
          | .error e => .error e
          | .ok (back, _) => newNeuralNet sensors actions front back

/-! ## Theorems -/

theorem geneWord_lt (g : Int) : geneWord g < 2 ^ 32 := by
  unfold geneWord
  split <;> omega

theorem geneWord_eq_emod (g : Int) : (geneWord g : Int) = g % (2 ^ 32) := by
  unfold geneWord
  split <;> omega

theorem processBytes_chunk (g : Int) (rest : List Nat)
    (h1 : -(2 ^ 31) ≤ g) (h2 : g < 2 ^ 31) :
    processBytes (be32 (geneWord g) ++ rest) = g :: processBytes rest := by
  have hw : (geneWord g : Int) = g % (2 ^ 32) := geneWord_eq_emod g
  have hlt : geneWord g < 2 ^ 32 := geneWord_lt g
  simp only [be32, List.cons_append, List.nil_append, processBytes, decodeWord]
  congr 1
  split <;> omega

theorem processBytes_flatten (genes : List Int)
    (hg : ∀ g ∈ genes, -(2 ^ 31) ≤ g ∧ g < 2 ^ 31) :
    processBytes ((genes.map fun g => be32 (geneWord g)).flatten) = genes := by
  induction genes with
  | nil => rfl
  | cons g gs ih =>
    have hgg := hg g (by simp)
    simp only [List.map_cons, List.flatten_cons]
    rw [processBytes_chunk g _ hgg.1 hgg.2, ih (fun x hx => hg x (by simp [hx]))]

theorem length_gene_flatten (genes : List Int) :
    ((genes.map fun g => be32 (geneWord g)).flatten).length = 4 * genes.length := by
  induction genes with
  | nil => rfl
  | cons g gs ih =>
    simp only [List.map_cons, List.flatten_cons, List.length_append, ih, List.length_cons]
    rw [show (be32 (geneWord g)).length = 4 from rfl]
    omega

theorem neuronFromBytes_marshal (genes : List Int) (hlen : genes.length < 2 ^ 16)
    (hg : ∀ g ∈ genes, -(2 ^ 31) ≤ g ∧ g < 2 ^ 31) :
    neuronFromBytes (marshal genes) = .ok genes := by
  have hjoin := length_gene_flatten genes
  simp only [marshal, be16, List.cons_append, List.nil_append, neuronFromBytes]
  have hsize : genes.length % 2 ^ 16 / 2 ^ 8 % 2 ^ 8 * 2 ^ 8 + genes.length % 2 ^ 8 % 2 ^ 8
      = genes.length := by omega
  rw [hsize]
  rw [if_neg (by omega)]
  rw [show 4 * genes.length = ((genes.map fun g => be32 (geneWord g)).flatten).length from hjoin.symm]
  rw [List.take_length]
  rw [processBytes_flatten genes hg]

theorem encodeB32_group (s0 s1 s2 s3 s4 : Nat) (rest : List Nat) :
    encodeB32 (s0 :: s1 :: s2 :: s3 :: s4 :: rest) =
      encGroup s0 s1 s2 s3 s4 ++ encodeB32 rest := rfl

theorem encodeB32_one (s0 : Nat) :
    encodeB32 [s0] = [s0 % 2 ^ 8 / 2 ^ 3, s0 % 2 ^ 8 * 2 ^ 2 % 2 ^ 5] := rfl

theorem encodeB32_two (s0 s1 : Nat) :
    encodeB32 [s0, s1] =
      [s0 % 2 ^ 8 / 2 ^ 3,
       s0 % 2 ^ 8 * 2 ^ 2 % 2 ^ 5 + s1 % 2 ^ 8 / 2 ^ 6 % 2 ^ 5,
       s1 % 2 ^ 8 / 2 % 2 ^ 5,
       s1 % 2 ^ 8 * 2 ^ 4 % 2 ^ 5] := rfl

theorem encodeB32_three (s0 s1 s2 : Nat) :
    encodeB32 [s0, s1, s2] =
      [s0 % 2 ^ 8 / 2 ^ 3,
       s0 % 2 ^ 8 * 2 ^ 2 % 2 ^ 5 + s1 % 2 ^ 8 / 2 ^ 6 % 2 ^ 5,
       s1 % 2 ^ 8 / 2 % 2 ^ 5,
       s1 % 2 ^ 8 * 2 ^ 4 % 2 ^ 5 + s2 % 2 ^ 8 / 2 ^ 4 % 2 ^ 5,
       s2 % 2 ^ 8 * 2 % 2 ^ 5] := rfl

theorem encodeB32_four (s0 s1 s2 s3 : Nat) :
    encodeB32 [s0, s1, s2, s3] =
      [s0 % 2 ^ 8 / 2 ^ 3,
       s0 % 2 ^ 8 * 2 ^ 2 % 2 ^ 5 + s1 % 2 ^ 8 / 2 ^ 6 % 2 ^ 5,
       s1 % 2 ^ 8 / 2 % 2 ^ 5,
       s1 % 2 ^ 8 * 2 ^ 4 % 2 ^ 5 + s2 % 2 ^ 8 / 2 ^ 4 % 2 ^ 5,
       s2 % 2 ^ 8 * 2 % 2 ^ 5 + s3 % 2 ^ 8 / 2 ^ 7,
       s3 % 2 ^ 8 / 2 ^ 2 % 2 ^ 5,
       s3 % 2 ^ 8 * 2 ^ 3 % 2 ^ 5] := rfl

theorem decodeB32_group (d0 d1 d2 d3 d4 d5 d6 d7 : Nat) (rest : List Nat) :
    decodeB32 (d0 :: d1 :: d2 :: d3 :: d4 :: d5 :: d6 :: d7 :: rest) =
      (decodeB32 rest).map fun tail => decGroup d0 d1 d2 d3 d4 d5 d6 d7 ++ tail := rfl

theorem decodeB32_two (d0 d1 : Nat) :
    decodeB32 [d0, d1] = some [(d0 * 2 ^ 3 + d1 / 2 ^ 2) % 2 ^ 8] := rfl

theorem decodeB32_four (d0 d1 d2 d3 : Nat) :
    decodeB32 [d0, d1, d2, d3] =
      some [(d0 * 2 ^ 3 + d1 / 2 ^ 2) % 2 ^ 8,
            (d1 * 2 ^ 6 + d2 * 2 + d3 / 2 ^ 4) % 2 ^ 8] := rfl

theorem decodeB32_five (d0 d1 d2 d3 d4 : Nat) :
    decodeB32 [d0, d1, d2, d3, d4] =
      some [(d0 * 2 ^ 3 + d1 / 2 ^ 2) % 2 ^ 8,
            (d1 * 2 ^ 6 + d2 * 2 + d3 / 2 ^ 4) % 2 ^ 8,
            (d3 * 2 ^ 4 + d4 / 2) % 2 ^ 8] := rfl

theorem decodeB32_seven (d0 d1 d2 d3 d4 d5 d6 : Nat) :
    decodeB32 [d0, d1, d2, d3, d4, d5, d6] =
      some [(d0 * 2 ^ 3 + d1 / 2 ^ 2) % 2 ^ 8,
            (d1 * 2 ^ 6 + d2 * 2 + d3 / 2 ^ 4) % 2 ^ 8,
            (d3 * 2 ^ 4 + d4 / 2) % 2 ^ 8,
            (d4 * 2 ^ 7 + d5 * 2 ^ 2 + d6 / 2 ^ 3) % 2 ^ 8] := rfl

theorem decodeB32_encodeB32 : ∀ bs : List Nat,
    decodeB32 (encodeB32 bs) = some (bs.map fun b => b % 2 ^ 8)
  | [] => rfl
  | [s0] => by
    rw [encodeB32_one, decodeB32_two]
    simp only [List.map_cons, List.map_nil, Option.some.injEq, List.cons.injEq, and_true]
    omega
  | [s0, s1] => by
    rw [encodeB32_two, decodeB32_four]
    simp only [List.map_cons, List.map_nil, Option.some.injEq, List.cons.injEq, and_true]
    omega
  | [s0, s1, s2] => by
    rw [encodeB32_three, decodeB32_five]
    simp only [List.map_cons, List.map_nil, Option.some.injEq, List.cons.injEq, and_true]
    omega
  | [s0, s1, s2, s3] => by
    rw [encodeB32_four, decodeB32_seven]
    simp only [List.map_cons, List.map_nil, Option.some.injEq, List.cons.injEq, and_true]
    omega
  | s0 :: s1 :: s2 :: s3 :: s4 :: rest => by
    have ih := decodeB32_encodeB32 rest
    rw [encodeB32_group]
    simp only [encGroup, List.cons_append, List.nil_append]
    rw [decodeB32_group, ih]
    simp only [Option.map_some', decGroup, List.cons_append, List.nil_append,
      List.map_cons, Option.some.injEq, List.cons.injEq, and_true]
    omega

theorem encGroup_lt (s0 s1 s2 s3 s4 : Nat) :
    ∀ d ∈ encGroup s0 s1 s2 s3 s4, d < 2 ^ 5 := by
  intro d hd
  simp only [encGroup, List.mem_cons, List.not_mem_nil, or_false] at hd
  rcases hd with rfl | rfl | rfl | rfl | rfl | rfl | rfl | rfl <;> omega

theorem encodeB32_lt : ∀ bs : List Nat, ∀ d ∈ encodeB32 bs, d < 2 ^ 5
  | [] => by intro d hd; simp [encodeB32] at hd
  | [s0] => fun d hd => encGroup_lt s0 0 0 0 0 d (List.take_subset _ _ hd)
  | [s0, s1] => fun d hd => encGroup_lt s0 s1 0 0 0 d (List.take_subset _ _ hd)
  | [s0, s1, s2] => fun d hd => encGroup_lt s0 s1 s2 0 0 d (List.take_subset _ _ hd)
  | [s0, s1, s2, s3] => fun d hd => encGroup_lt s0 s1 s2 s3 0 d (List.take_subset _ _ hd)
  | s0 :: s1 :: s2 :: s3 :: s4 :: rest => by
    intro d hd
    rw [encodeB32_group] at hd
    rcases List.mem_append.mp hd with h | h
    · exact encGroup_lt s0 s1 s2 s3 s4 d h
    · exact encodeB32_lt rest d h

theorem charDigit_digitChar_fin :
    ∀ d : Fin 32, charDigit (digitChar d.val) = some d.val := by decide

theorem charDigit_digitChar (d : Nat) (h : d < 32) :
    charDigit (digitChar d) = some d := charDigit_digitChar_fin ⟨d, h⟩

theorem digitChar_plain_fin :
    ∀ d : Fin 32, isSpaceRune (digitChar d.val) = false ∧
      ((digitChar d.val).toNat != 10 && (digitChar d.val).toNat != 13) = true := by decide

theorem charsToDigits_map (ds : List Nat) (h : ∀ d ∈ ds, d < 32) :
    charsToDigits (ds.map digitChar) = some ds := by
  induction ds with
  | nil => rfl
  | cons d rest ih =>
    simp only [List.map_cons, charsToDigits,
      charDigit_digitChar d (h d (by simp)),
      ih (fun x hx => h x (by simp [hx])), Option.map_some']
    rfl

theorem dropWhile_of_none (p : Char → Bool) (s : List Char)
    (h : ∀ c ∈ s, p c = false) : s.dropWhile p = s := by
  cases s with
  | nil => rfl
  | cons a t => simp [List.dropWhile_cons, h a (by simp)]

theorem trimSpace_of_no_space (s : List Char)
    (h : ∀ c ∈ s, isSpaceRune c = false) : trimSpace s = s := by
  unfold trimSpace
  rw [dropWhile_of_none _ s h]
  rw [dropWhile_of_none _ s.reverse (fun c hc => h c (List.mem_reverse.mp hc))]
  exact List.reverse_reverse s

theorem marshal_lt (neu : List Int) : ∀ b ∈ marshal neu, b < 2 ^ 8 := by
  intro b hb
  rcases List.mem_append.mp hb with h | h
  · simp only [be16, List.mem_cons, List.not_mem_nil, or_false] at h
    rcases h with rfl | rfl <;> omega
  · obtain ⟨l, hl, hbl⟩ := List.mem_flatten.mp h
    obtain ⟨g, _, rfl⟩ := List.mem_map.mp hl
    simp only [be32, List.mem_cons, List.not_mem_nil, or_false] at hbl
    rcases hbl with rfl | rfl | rfl | rfl <;> omega

theorem map_mod_of_lt (bs : List Nat) (h : ∀ b ∈ bs, b < 2 ^ 8) :
    (bs.map fun b => b % 2 ^ 8) = bs := by
  induction bs with
  | nil => rfl
  | cons b rest ih =>
    simp only [List.map_cons, Nat.mod_eq_of_lt (h b (by simp)),
      ih (fun x hx => h x (by simp [hx]))]

theorem neuronFromText_toText (genes : List Int) (hlen : genes.length < 2 ^ 16)
    (hg : ∀ g ∈ genes, -(2 ^ 31) ≤ g ∧ g < 2 ^ 31) :
    neuronFromText (toText genes) = .ok genes := by
  have hd : ∀ d ∈ encodeB32 (marshal genes), d < 2 ^ 5 := encodeB32_lt _
  have hscrut :
      (charsToDigits ((trimSpace (toText genes)).filter fun c =>
          c.toNat != 10 && c.toNat != 13)).bind decodeB32 = some (marshal genes) := by
    unfold toText
    rw [trimSpace_of_no_space _ (by
      intro c hc
      obtain ⟨d, hdm, rfl⟩ := List.mem_map.mp hc
      exact (digitChar_plain_fin ⟨d, hd d hdm⟩).1)]
    rw [List.filter_eq_self.mpr (by
      intro c hc
      obtain ⟨d, hdm, rfl⟩ := List.mem_map.mp hc
      exact (digitChar_plain_fin ⟨d, hd d hdm⟩).2)]
    rw [charsToDigits_map _ hd, Option.some_bind, decodeB32_encodeB32,
      map_mod_of_lt _ (marshal_lt genes)]
  unfold neuronFromText
  rw [hscrut]
  exact neuronFromBytes_marshal genes hlen hg

theorem equals_refl (a : List Int) : equals a a = true := by
  unfold equals
  rw [Bool.and_eq_true, beq_iff_eq, List.all_eq_true]
  refine ⟨rfl, ?_⟩
  induction a with
  | nil => simp
  | cons x t ih =>
    intro p hp
    rcases List.mem_cons.mp hp with rfl | hp
    · exact beq_self_eq_true x
    · exact ih p hp

/-- Claim C1: a neuron built from an explicit gene vector (32-bit genes,
fewer than `2 ^ 16` of them) survives the binary round trip through
`Marshal` and `neuronFromBytes`, and the text round trip through `String()`
and the string arm of `NewNeuron`, up to `Equals`. -/
theorem claim_C1 (genes : List Int) (hlen : genes.length < 2 ^ 16)
    (hg : ∀ g ∈ genes, -(2 ^ 31) ≤ g ∧ g < 2 ^ 31) :
    (∃ neu, neuronFromBytes (marshal genes) = .ok neu ∧ equals neu genes = true) ∧
    (∃ neu, neuronFromText (toText genes) = .ok neu ∧ equals neu genes = true) :=
  ⟨⟨genes, neuronFromBytes_marshal genes hlen hg, equals_refl genes⟩,
   ⟨genes, neuronFromText_toText genes hlen hg, equals_refl genes⟩⟩

/-- Witness for claim C1, at the gene vector `[0, 256]`. -/
theorem claim_C1_witness :
    (∃ neu, neuronFromBytes (marshal [0, 256]) = .ok neu ∧ equals neu [0, 256] = true) ∧
    (∃ neu, neuronFromText (toText [0, 256]) = .ok neu ∧ equals neu [0, 256] = true) :=
  claim_C1 [0, 256] (by decide) (by decide)

theorem geneWord_eq (g : Int) : geneWord g = ((g % (2 ^ 32)).toNat) := by
  have h := geneWord_eq_emod g
  omega

theorem flatten_chunk (genes : List Int) (i : Nat) (hi : i < genes.length) :
    (((genes.map fun g => be32 (geneWord g)).flatten).drop (4 * i)).take 4
      = be32 (geneWord (genes.getD i 0)) := by
  induction genes generalizing i with
  | nil => simp at hi
  | cons g gs ih =>
    cases i with
    | zero =>
      simp only [Nat.mul_zero, List.drop_zero, List.getD_cons_zero, List.map_cons,
        List.flatten_cons, be32]
      rfl
    | succ j =>
      have hj : j < gs.length := by simpa using hi
      simp only [List.map_cons, List.flatten_cons, List.getD_cons_succ]
      rw [show 4 * (j + 1) = (be32 (geneWord g)).length + 4 * j from by simp [be32]; omega]
      rw [List.drop_append]
      exact ih j hj

/-- Claim C2: for gene counts below `2 ^ 16` (and genes in 32-bit range, so
that a two's-complement 32-bit representation exists), `Marshal` emits
exactly `2 + 4 * count` bytes — the count as unsigned big-endian 16 bits,
then each gene as big-endian two's-complement 32 bits — and the neuron
`[0, 256]` marshals to `00 02 00 00 00 00 00 00 01 00`. -/
theorem claim_C2 (genes : List Int) (hlen : genes.length < 2 ^ 16)
    (hg : ∀ g ∈ genes, -(2 ^ 31) ≤ g ∧ g < 2 ^ 31) :
    (marshal genes).length = 2 + 4 * genes.length ∧
    (marshal genes).take 2 = [genes.length / 2 ^ 8, genes.length % 2 ^ 8] ∧
    (∀ i, i < genes.length →
      ((marshal genes).drop (2 + 4 * i)).take 4 = twosComplement32 (genes.getD i 0)) ∧
    marshal [0, 256] = [0, 2, 0, 0, 0, 0, 0, 0, 1, 0] := by
  refine ⟨?_, ?_, ?_, by decide⟩
  · simp only [marshal, List.length_append, length_gene_flatten, be16]
    simp
  · simp only [marshal, be16, List.cons_append, List.nil_append]
    rw [show ∀ t : List Nat, List.take 2 (genes.length % 2 ^ 16 / 2 ^ 8 ::
        genes.length % 2 ^ 8 :: t) =
        [genes.length % 2 ^ 16 / 2 ^ 8, genes.length % 2 ^ 8] from fun t => rfl]
    simp only [List.cons.injEq, and_true]
    omega
  · intro i hi
    simp only [marshal]
    rw [show 2 + 4 * i = (be16 genes.length).length + 4 * i from by simp [be16]]
    rw [List.drop_append, flatten_chunk genes i hi, twosComplement32, geneWord_eq]

/-- Witness for claim C2, at the gene vector `[0, 256]`. -/
theorem claim_C2_witness :
    (marshal [0, 256]).length = 2 + 4 * ([0, 256] : List Int).length ∧
    (marshal [0, 256]).take 2 =
      [([0, 256] : List Int).length / 2 ^ 8, ([0, 256] : List Int).length % 2 ^ 8] ∧
    (∀ i, i < ([0, 256] : List Int).length →
      ((marshal [0, 256]).drop (2 + 4 * i)).take 4 =
        twosComplement32 (([0, 256] : List Int).getD i 0)) ∧
    marshal [0, 256] = [0, 2, 0, 0, 0, 0, 0, 0, 1, 0] :=
  claim_C2 [0, 256] (by decide) (by decide)

theorem neuronFromBytes_cons (b0 b1 : Nat) (body : List Nat) :
    neuronFromBytes (b0 :: b1 :: body) =
      if body.length < 4 * (b0 % 2 ^ 8 * 2 ^ 8 + b1 % 2 ^ 8) then
        .error ("runtime error: index out of range")
      else .ok (processBytes (body.take (4 * (b0 % 2 ^ 8 * 2 ^ 8 + b1 % 2 ^ 8)))) := rfl

/-- Claim C6: when a byte sequence holds fewer than `2 + 4 * declared_size`
bytes, with `declared_size` read big-endian from its first two bytes,
`neuronFromBytes` fails with an error and returns no neuron. -/
theorem claim_C6 (b0 b1 : Nat) (body : List Nat)
    (hbytes : ∀ b ∈ b0 :: b1 :: body, b < 2 ^ 8)
    (hshort : (b0 :: b1 :: body).length < 2 + 4 * (b0 * 2 ^ 8 + b1)) :
    ∃ e, neuronFromBytes (b0 :: b1 :: body) = .error e := by
  have hb0 : b0 < 2 ^ 8 := hbytes b0 (by simp)
  have hb1 : b1 < 2 ^ 8 := hbytes b1 (by simp)
  have hlt : body.length < 4 * (b0 % 2 ^ 8 * 2 ^ 8 + b1 % 2 ^ 8) := by
    simp only [List.length_cons] at hshort
    omega
  exact ⟨_, by rw [neuronFromBytes_cons, if_pos hlt]⟩

/-- Witness for claim C6: three bytes declaring two genes. -/
theorem claim_C6_witness : ∃ e, neuronFromBytes (0 :: 2 :: [0]) = .error e :=
  claim_C6 0 2 [0] (by decide) (by decide)

theorem processBytes_length : ∀ l : List Nat, (processBytes l).length = l.length / 4
  | b0 :: b1 :: b2 :: b3 :: rest => by
    simp only [processBytes, List.length_cons, processBytes_length rest]
    omega
  | [] => rfl
  | [_] => by simp [processBytes]
  | [_, _] => by simp [processBytes]
  | [_, _, _] => by simp [processBytes]

/-- Claim C10: when a byte sequence holds more than `2 + 4 * declared_size`
bytes, decoding succeeds, ignores the trailing bytes (decoding the truncated
prefix yields the same genes), and the declared size fixes the gene count. -/
theorem claim_C10 (b0 b1 : Nat) (body : List Nat)
    (hbytes : ∀ b ∈ b0 :: b1 :: body, b < 2 ^ 8)
    (hlong : 2 + 4 * (b0 * 2 ^ 8 + b1) < (b0 :: b1 :: body).length) :
    ∃ genes, neuronFromBytes (b0 :: b1 :: body) = .ok genes ∧
      genes.length = b0 * 2 ^ 8 + b1 ∧
      neuronFromBytes ((b0 :: b1 :: body).take (2 + 4 * (b0 * 2 ^ 8 + b1))) = .ok genes := by
  have hb0 : b0 < 2 ^ 8 := hbytes b0 (by simp)
  have hb1 : b1 < 2 ^ 8 := hbytes b1 (by simp)
  have hsz : b0 % 2 ^ 8 * 2 ^ 8 + b1 % 2 ^ 8 = b0 * 2 ^ 8 + b1 := by omega
  have hlen : 4 * (b0 * 2 ^ 8 + b1) ≤ body.length := by
    simp only [List.length_cons] at hlong
    omega
  refine ⟨processBytes (body.take (4 * (b0 * 2 ^ 8 + b1))), ?_, ?_, ?_⟩
  · rw [neuronFromBytes_cons, hsz, if_neg (by omega)]
  · rw [processBytes_length, List.length_take]
    omega
  · rw [show 2 + 4 * (b0 * 2 ^ 8 + b1) = 4 * (b0 * 2 ^ 8 + b1) + 1 + 1 from by omega]
    rw [List.take_succ_cons, List.take_succ_cons]
    rw [neuronFromBytes_cons, hsz]
    rw [if_neg (by rw [List.length_take]; omega)]
    rw [List.take_take]
    simp

/-- Witness for claim C10: seven bytes declaring a single gene. -/
theorem claim_C10_witness :
    ∃ genes, neuronFromBytes (0 :: 1 :: [9, 9, 9, 9, 7]) = .ok genes ∧
      genes.length = 0 * 2 ^ 8 + 1 ∧
      neuronFromBytes ((0 :: 1 :: [9, 9, 9, 9, 7]).take (2 + 4 * (0 * 2 ^ 8 + 1))) =
        .ok genes :=
  claim_C10 0 1 [9, 9, 9, 9, 7] (by decide) (by decide)

theorem foldl_add_sum (l : List (ℚ × Int)) (a : ℚ) :
    l.foldl (fun sum p => sum + p.1 * (p.2 : ℚ)) a
      = a + (l.map fun p => p.1 * (p.2 : ℚ)).sum := by
  induction l generalizing a with
  | nil => simp
  | cons p t ih =>
    simp only [List.foldl_cons, List.map_cons, List.sum_cons, ih]
    ring

theorem zipmap_sum (params : List ℚ) (genes : List Int)
    (h : params.length = genes.length) :
    ((params.zip genes).map fun p => p.1 * (p.2 : ℚ)).sum
      = ∑ i ∈ Finset.range genes.length, params.getD i 0 * (genes.getD i 0 : ℚ) := by
  induction genes generalizing params with
  | nil =>
    cases params with
    | nil => simp
    | cons p ps => simp at h
  | cons g gs ih =>
    cases params with
    | nil => simp at h
    | cons p ps =>
      have h' : ps.length = gs.length := by simpa using h
      simp only [List.zip_cons_cons, List.map_cons, List.sum_cons, List.length_cons]
      rw [Finset.sum_range_succ']
      simp only [List.getD_cons_succ, List.getD_cons_zero]
      rw [ih ps h']
      ring

theorem dotSum_eq_sum (params : List ℚ) (genes : List Int)
    (h : params.length = genes.length) :
    dotSum params genes
      = ∑ i ∈ Finset.range genes.length, params.getD i 0 * (genes.getD i 0 : ℚ) := by
  unfold dotSum
  rw [foldl_add_sum, zero_add, zipmap_sum params genes h]

/-- Claim C3: with exactly `size` parameters, `Compute` returns the weighted
sum `Σ params[i] * gene[i]` truncated toward zero when that sum is strictly
positive, and 0 when the sum is at most 0; and with genes
`[-5, -4, -3, -2, -1, 0, 1, 2, 3, 4]`, computing on
`(0, 0, 0, 0, 0, 1, 1, 1, 1, 1)` gives 10. -/
theorem claim_C3 (genes : List Int) (params : List ℚ)
    (h : params.length = genes.length) :
    (0 < ∑ i ∈ Finset.range genes.length, params.getD i 0 * (genes.getD i 0 : ℚ) →
      compute genes params =
        some (truncQ (∑ i ∈ Finset.range genes.length,
          params.getD i 0 * (genes.getD i 0 : ℚ)))) ∧
    (∑ i ∈ Finset.range genes.length, params.getD i 0 * (genes.getD i 0 : ℚ) ≤ 0 →
      compute genes params = some 0) ∧
    compute [-5, -4, -3, -2, -1, 0, 1, 2, 3, 4] [0, 0, 0, 0, 0, 1, 1, 1, 1, 1] =
      some 10 := by
  have hne : ¬params.length ≠ genes.length := by omega
  refine ⟨?_, ?_, by norm_num [compute, computeVal, dotSum, truncQ]⟩
  · intro hpos
    simp only [compute, computeVal, hne, if_false, dotSum_eq_sum params genes h,
      if_pos hpos]
  · intro hnonpos
    simp only [compute, computeVal, hne, if_false, dotSum_eq_sum params genes h,
      if_neg (by exact not_lt.mpr hnonpos)]

/-- Witness for claim C3, at genes `[2, -3]` and parameters `(5, 1)`. -/
theorem claim_C3_witness :
    (0 < ∑ i ∈ Finset.range ([2, -3] : List Int).length,
        ([5, 1] : List ℚ).getD i 0 * (([2, -3] : List Int).getD i 0 : ℚ) →
      compute [2, -3] [5, 1] =
        some (truncQ (∑ i ∈ Finset.range ([2, -3] : List Int).length,
          ([5, 1] : List ℚ).getD i 0 * (([2, -3] : List Int).getD i 0 : ℚ)))) ∧
    (∑ i ∈ Finset.range ([2, -3] : List Int).length,
        ([5, 1] : List ℚ).getD i 0 * (([2, -3] : List Int).getD i 0 : ℚ) ≤ 0 →
      compute [2, -3] [5, 1] = some 0) ∧
    compute [-5, -4, -3, -2, -1, 0, 1, 2, 3, 4] [0, 0, 0, 0, 0, 1, 1, 1, 1, 1] =
      some 10 :=
  claim_C3 [2, -3] [5, 1] (by decide)

/-- Claim C9: `Compute` with a parameter count different from the gene count
panics (no normal result is ever produced). -/
theorem claim_C9 (genes : List Int) (params : List ℚ)
    (h : params.length ≠ genes.length) : compute genes params = none := by
  unfold compute
  rw [if_pos h]

/-- Witness for claim C9: one gene, no parameters. -/
theorem claim_C9_witness : compute [1] ([] : List ℚ) = none :=
  claim_C9 [1] [] (by decide)

/-- Counterexample to claim C8 as stated: the deviation `2 ^ 31` is a
positive Go `int`, and the draw 0 lies in `[0, 2 ^ 31)`, yet `Child` returns
no neuron — `int32(dev)` wraps to `-2 ^ 31`, so `rand.Int31n` panics. -/
theorem claim_C8_counterexample : child [0] (2 ^ 31) [0] = none := by decide

/-- Claim C8, amended: for a deviation strictly between 0 and `2 ^ 31` and
draws `u` taken from `[0, deviation)` (the range `rand.Int31n` returns
uniformly), `Child` returns a neuron of the same size whose `i`-th gene is
the original gene plus the offset `u - deviation / 2`, an offset that lies in
`[-(deviation / 2), deviation - 1 - deviation / 2]`. -/
theorem claim_C8_amended (neu : List Int) (dev : Int) (draws : List Int)
    (hdev0 : 0 < dev) (hdev : dev < 2 ^ 31) (hlen : draws.length = neu.length)
    (hdraws : ∀ u ∈ draws, 0 ≤ u ∧ u < dev) :
    ∃ c, child neu dev draws = some c ∧ c.length = neu.length ∧
      ∀ i, i < neu.length →
        c.getD i 0 = neu.getD i 0 + (draws.getD i 0 - dev / 2) ∧
        -(dev / 2) ≤ draws.getD i 0 - dev / 2 ∧
        draws.getD i 0 - dev / 2 ≤ dev - 1 - dev / 2 := by
  have hcast : int32cast dev = dev := by
    unfold int32cast
    omega
  have htd : Int.tdiv dev 2 = dev / 2 :=
    Int.tdiv_eq_ediv (by omega) (by norm_num)
  refine ⟨(neu.zip draws).map fun p => p.1 + p.2 - Int.tdiv dev 2, ?_, ?_, ?_⟩
  · unfold child
    rw [if_neg (by rw [hcast]; omega)]
  · rw [List.length_map, List.length_zip]
    omega
  · intro i hi
    have hi' : i < draws.length := by omega
    have hizip : i < ((neu.zip draws).map fun p => p.1 + p.2 - Int.tdiv dev 2).length := by
      rw [List.length_map, List.length_zip]
      omega
    have hget : ((neu.zip draws).map fun p => p.1 + p.2 - Int.tdiv dev 2).getD i 0
        = neu.getD i 0 + draws.getD i 0 - Int.tdiv dev 2 := by
      rw [List.getD_eq_getElem _ _ hizip, List.getElem_map, List.getElem_zip,
        List.getD_eq_getElem _ _ hi, List.getD_eq_getElem _ _ hi']
    have hu : 0 ≤ draws.getD i 0 ∧ draws.getD i 0 < dev := by
      refine hdraws _ ?_
      rw [List.getD_eq_getElem _ _ hi']
      exact List.getElem_mem _
    refine ⟨by rw [hget, htd]; ring, by omega, by omega⟩

/-- Witness for the amended claim C8: neuron `[5]`, deviation 3, draw 2. -/
theorem claim_C8_amended_witness :
    ∃ c, child [5] 3 [2] = some c ∧ c.length = ([5] : List Int).length ∧
      ∀ i, i < ([5] : List Int).length →
        c.getD i 0 = ([5] : List Int).getD i 0 + (([2] : List Int).getD i 0 - 3 / 2) ∧
        -(3 / 2 : Int) ≤ ([2] : List Int).getD i 0 - 3 / 2 ∧
        ([2] : List Int).getD i 0 - 3 / 2 ≤ 3 - 1 - 3 / 2 :=
  claim_C8_amended [5] 3 [2] (by decide) (by decide) (by decide) (by decide)

theorem usort_sorted (l : List Str) : (usort l).Sorted (fun x y => x ≤ y) :=
  List.sorted_insertionSort _ _

theorem usort_nodup (l : List Str) : (usort l).Nodup :=
  (List.perm_insertionSort _ _).nodup_iff.mpr (List.nodup_dedup l)

theorem usort_eq_self (l : List Str) (hs : l.Sorted (fun x y => x ≤ y))
    (hn : l.Nodup) : usort l = l := by
  unfold usort
  rw [List.dedup_eq_self.mpr hn]
  exact List.eq_of_perm_of_sorted (List.perm_insertionSort _ _)
    (List.sorted_insertionSort _ _) hs

theorem usort_idem (l : List Str) : usort (usort l) = usort l :=
  usort_eq_self _ (usort_sorted l) (usort_nodup l)

theorem usort_mem (l : List Str) (x : Str) : x ∈ usort l ↔ x ∈ l := by
  unfold usort
  rw [(List.perm_insertionSort _ _).mem_iff]
  exact List.mem_dedup

theorem newNeuralNet_ok {s a : List Str} {f b : List (List Int)} {net : Neuralnet}
    (h : newNeuralNet s a f b = .ok net) :
    net = ⟨usort a, f, b, usort s⟩ ∧
    (usort s).length ≠ 0 ∧ (usort a).length ≠ 0 ∧
    f.length = (usort a).length ∧ b.length = (usort a).length ∧
    (∀ neu ∈ f, neu.length = (usort s).length) ∧
    (∀ neu ∈ b, neu.length = (usort a).length) := by
  unfold newNeuralNet at h
  split_ifs at h with h1 h2 h3 h4 h5 h6
  injection h with h
  simp only [Bool.not_eq_true', Bool.not_eq_false, List.all_eq_true, beq_iff_eq] at h5 h6
  exact ⟨h.symm, h1, h2, by omega, by omega, h5, h6⟩

theorem checkInput_ok_iff (net : Neuralnet) (incoming : List (Str × ℚ))
    (hns : net.sensors.Nodup) (hkeys : (incoming.map Prod.fst).Nodup) :
    checkInput net incoming = .ok () ↔ (incoming.map Prod.fst).Perm net.sensors := by
  unfold checkInput
  by_cases hl : incoming.length ≠ net.sensors.length
  · rw [if_pos hl]
    constructor
    · intro h
      exact Except.noConfusion h
    · intro hperm
      exact absurd (by simpa using hperm.length_eq) hl
  · rw [if_neg hl]
    push_neg at hl
    by_cases hall : incoming.all (fun kv => net.sensors.contains kv.1) = true
    · rw [if_pos hall]
      rw [List.all_eq_true] at hall
      have hsub : (incoming.map Prod.fst) ⊆ net.sensors := by
        intro k hk
        obtain ⟨kv, hkv, rfl⟩ := List.mem_map.mp hk
        exact List.elem_iff.mp (hall kv hkv)
      have hperm : (incoming.map Prod.fst).Perm net.sensors :=
        (List.subperm_of_subset hkeys hsub).perm_of_length_le
          (by rw [List.length_map]; omega)
      exact ⟨fun _ => hperm, fun _ => rfl⟩
    · rw [if_neg hall]
      constructor
      · intro h
        exact Except.noConfusion h
      · intro hperm
        refine absurd (List.all_eq_true.mpr ?_) hall
        intro kv hkv
        exact List.elem_iff.mpr (hperm.subset (List.mem_map_of_mem _ hkv))

theorem computeLayer_eq (neus : List (List Int)) (data : List ℚ)
    (h : ∀ neu ∈ neus, neu.length = data.length) :
    computeLayer neus data = some (neus.map fun neu => computeVal neu data) := by
  induction neus with
  | nil => rfl
  | cons n t ih =>
    have hn : n.length = data.length := h n (by simp)
    unfold computeLayer
    rw [show compute n data = some (computeVal n data) from by
      unfold compute
      rw [if_neg (by omega)]]
    rw [ih (fun x hx => h x (by simp [hx]))]
    rfl

/-- Claim C4: for a validly constructed net, `Compute` fails with a
validation error exactly when the incoming key set differs from the sensor
set (a missing or extra key); otherwise it panics nowhere and pairs the i-th
action with `backNeuronSet[i].Compute(middle) > 0`, where `middle` collects
the front neurons' outputs on the inputs read in canonical sensor order. -/
theorem claim_C4 (s a : List Str) (f b : List (List Int)) (net : Neuralnet)
    (hnet : newNeuralNet s a f b = .ok net)
    (incoming : List (Str × ℚ)) (hkeys : (incoming.map Prod.fst).Nodup) :
    (¬ (incoming.map Prod.fst).Perm net.sensors →
      ∃ e, netCompute net incoming = some (.error e)) ∧
    ((incoming.map Prod.fst).Perm net.sensors →
      netCompute net incoming = some (.ok (net.actions.zip
        ((net.backNeuronSet.map fun neu => computeVal neu
            ((net.frontNeuronSet.map fun fneu => computeVal fneu
              (net.sensors.map (lookupQ incoming))).map fun v : Int => (v : ℚ))).map
          fun v => decide (0 < v))))) := by
  obtain ⟨hnetEq, hs0, ha0, hf, hb, hfl, hbl⟩ := newNeuralNet_ok hnet
  subst hnetEq
  have hns : (Neuralnet.mk (usort a) f b (usort s)).sensors.Nodup := usort_nodup s
  have hiff := checkInput_ok_iff _ incoming hns hkeys
  constructor
  · intro hnp
    have hne : checkInput ⟨usort a, f, b, usort s⟩ incoming ≠ .ok () := fun hok =>
      hnp (hiff.mp hok)
    cases hcheck : checkInput ⟨usort a, f, b, usort s⟩ incoming with
    | error e =>
      refine ⟨e, ?_⟩
      unfold netCompute
      rw [hcheck]
    | ok u =>
      cases u
      exact absurd hcheck hne
  · intro hperm
    have hok : checkInput ⟨usort a, f, b, usort s⟩ incoming = .ok () := hiff.mpr hperm
    have hfront := computeLayer_eq f
      ((Neuralnet.mk (usort a) f b (usort s)).sensors.map
        (lookupQ incoming))
      (by
        intro neu hneu
        rw [List.length_map]
        exact hfl neu hneu)
    have hback := computeLayer_eq b
      (((f.map fun fneu => computeVal fneu
          ((Neuralnet.mk (usort a) f b (usort s)).sensors.map
            (lookupQ incoming))).map fun v : Int => (v : ℚ)))
      (by
        intro neu hneu
        rw [List.length_map, List.length_map]
        rw [hbl neu hneu, hf])
    unfold netCompute
    rw [hok]
    dsimp only at hfront hback ⊢
    rw [hfront]
    dsimp only
    rw [hback]

set_option maxRecDepth 8192 in
/-- Witness for claim C4: one sensor, one action, matching input keys. -/
theorem claim_C4_witness :
    (¬ (([([97], 1)] : List (Str × ℚ)).map Prod.fst).Perm
        (Neuralnet.mk [[98]] [[2]] [[3]] [[97]]).sensors →
      ∃ e, netCompute ⟨[[98]], [[2]], [[3]], [[97]]⟩ [([97], 1)] = some (.error e)) ∧
    ((([([97], 1)] : List (Str × ℚ)).map Prod.fst).Perm
        (Neuralnet.mk [[98]] [[2]] [[3]] [[97]]).sensors →
      netCompute ⟨[[98]], [[2]], [[3]], [[97]]⟩ [([97], 1)] =
        some (.ok ((Neuralnet.mk [[98]] [[2]] [[3]] [[97]]).actions.zip
          (((Neuralnet.mk [[98]] [[2]] [[3]] [[97]]).backNeuronSet.map fun neu =>
              computeVal neu
                (((Neuralnet.mk [[98]] [[2]] [[3]] [[97]]).frontNeuronSet.map fun fneu =>
                    computeVal fneu
                      ((Neuralnet.mk [[98]] [[2]] [[3]] [[97]]).sensors.map
                        (lookupQ [([97], 1)]))).map
                  fun v : Int => (v : ℚ))).map
            fun v => decide (0 < v))))) :=
  claim_C4 [[97]] [[98]] [[2]] [[3]] ⟨[[98]], [[2]], [[3]], [[97]]⟩ (by decide)
    [([97], 1)] (by decide)

theorem readN_exact (n : Nat) (pre rest : List Nat) (hl : pre.length = n) :
    readN n (pre ++ rest) = .ok (pre, rest) := by
  unfold readN
  rw [if_neg (by
    rintro ⟨hemp, hn0⟩
    rw [List.isEmpty_iff, List.append_eq_nil] at hemp
    rw [hemp.1] at hl
    exact hn0 (by simpa using hl.symm))]
  rw [List.take_left' hl, List.drop_left' hl]
  have : n - (pre ++ rest).length = 0 := by
    rw [List.length_append]
    omega
  rw [this, List.replicate_zero, List.append_nil]

theorem dropWhile_nul (name : Str) (rest : List Nat) (h0 : ∀ c ∈ name, c ≠ 0) :
    (name ++ 0 :: rest).dropWhile (fun b => b != 0) = 0 :: rest := by
  induction name with
  | nil => simp [List.dropWhile_cons]
  | cons c t ih =>
    have hc : c ≠ 0 := h0 c (by simp)
    simp only [List.cons_append, List.dropWhile_cons]
    rw [if_pos (by simpa using hc)]
    exact ih (fun x hx => h0 x (by simp [hx]))

theorem takeWhile_nul (name : Str) (rest : List Nat) (h0 : ∀ c ∈ name, c ≠ 0) :
    (name ++ 0 :: rest).takeWhile (fun b => b != 0) = name := by
  induction name with
  | nil => simp [List.takeWhile_cons]
  | cons c t ih =>
    have hc : c ≠ 0 := h0 c (by simp)
    simp only [List.cons_append, List.takeWhile_cons]
    rw [if_pos (by simpa using hc)]
    rw [ih (fun x hx => h0 x (by simp [hx]))]

theorem parseCString_encode (name : Str) (rest : List Nat)
    (h0 : ∀ c ∈ name, c ≠ 0) :
    parseCString (name ++ 0 :: rest) = .ok (name, rest) := by
  unfold parseCString
  rw [dropWhile_nul name rest h0, takeWhile_nul name rest h0]

theorem parseCStrings_encode (names : List Str) (rest : List Nat)
    (h0 : ∀ name ∈ names, ∀ c ∈ name, c ≠ 0) :
    parseCStrings names.length (encodeNames names ++ rest) = .ok (names, rest) := by
  induction names generalizing rest with
  | nil => simp [parseCStrings, encodeNames]
  | cons n t ih =>
    have hassoc : encodeNames (n :: t) ++ rest = n ++ 0 :: (encodeNames t ++ rest) := by
      simp only [encodeNames, List.map_cons, List.flatten_cons, List.append_assoc,
        List.singleton_append, List.cons_append, List.nil_append]
    rw [List.length_cons]
    unfold parseCStrings
    rw [hassoc, parseCString_encode n _ (h0 n (by simp))]
    dsimp only
    rw [ih _ (fun x hx => h0 x (by simp [hx]))]

theorem usort_length_le (l : List Str) : (usort l).length ≤ l.length := by
  unfold usort
  rw [(List.perm_insertionSort _ _).length_eq]
  exact (List.dedup_sublist l).length_le

theorem loadStrings_encode (names : List Str) (rest : List Nat)
    (hn : names.length < 2 ^ 16)
    (h0 : ∀ name ∈ names, ∀ c ∈ name, c ≠ 0) :
    loadStrings (be16 names.length ++ ([0, 0] ++ (encodeNames names ++ rest)))
      = .ok (names, rest) := by
  unfold loadStrings
  rw [show be16 names.length ++ ([0, 0] ++ (encodeNames names ++ rest))
      = (be16 names.length ++ [0, 0]) ++ (encodeNames names ++ rest) from by
    simp [List.append_assoc]]
  rw [readN_exact 4 _ _ (by simp [be16])]
  dsimp only
  have hbuf : (be16 names.length ++ [0, 0]).getD 0 0 % 2 ^ 8 * 2 ^ 8
      + (be16 names.length ++ [0, 0]).getD 1 0 % 2 ^ 8 = names.length := by
    simp only [be16, List.cons_append, List.nil_append, List.getD,
      List.getElem?_cons_zero, List.getElem?_cons_succ, List.get?_cons_zero,
      List.get?_cons_succ, Option.getD_some]
    omega
  rw [hbuf]
  exact parseCStrings_encode names rest h0

theorem readFile_marshal (genes : List Int) (rest : List Nat)
    (hlen : genes.length < 2 ^ 16)
    (hg : ∀ g ∈ genes, -(2 ^ 31) ≤ g ∧ g < 2 ^ 31) :
    readFile (marshal genes ++ rest) = .ok (genes, rest) := by
  unfold readFile
  rw [show marshal genes ++ rest
      = be16 genes.length ++ ((genes.map fun g => be32 (geneWord g)).flatten ++ rest) from by
    simp [marshal, List.append_assoc]]
  rw [readN_exact 2 _ _ (by simp [be16])]
  dsimp only
  have hbuf : (be16 genes.length).getD 0 0 % 2 ^ 8 * 2 ^ 8
      + (be16 genes.length).getD 1 0 % 2 ^ 8 = genes.length := by
    simp only [be16, List.getD, List.getElem?_cons_zero, List.getElem?_cons_succ,
      List.get?_cons_zero, List.get?_cons_succ, Option.getD_some]
    omega
  rw [hbuf]
  rw [readN_exact (4 * genes.length) _ _ (length_gene_flatten genes)]
  dsimp only
  rw [show be16 genes.length ++ (genes.map fun g => be32 (geneWord g)).flatten
      = marshal genes from rfl]
  rw [neuronFromBytes_marshal genes hlen hg]

theorem parseNeurons_marshal (neus : List (List Int)) (rest : List Nat)
    (hlen : ∀ neu ∈ neus, neu.length < 2 ^ 16)
    (hg : ∀ neu ∈ neus, ∀ g ∈ neu, -(2 ^ 31) ≤ g ∧ g < 2 ^ 31) :
    parseNeurons neus.length ((neus.map marshal).flatten ++ rest) = .ok (neus, rest) := by
  induction neus generalizing rest with
  | nil => simp [parseNeurons]
  | cons n t ih =>
    rw [List.length_cons]
    unfold parseNeurons
    rw [show ((n :: t).map marshal).flatten ++ rest
        = marshal n ++ ((t.map marshal).flatten ++ rest) from by
      simp [List.append_assoc]]
    rw [readFile_marshal n _ (hlen n (by simp)) (hg n (by simp))]
    dsimp only
    rw [ih _ (fun x hx => hlen x (by simp [hx])) (fun x hx => hg x (by simp [hx]))]

theorem loadNeurons_marshal (neus : List (List Int)) (rest : List Nat)
    (hn : neus.length < 2 ^ 16)
    (hlen : ∀ neu ∈ neus, neu.length < 2 ^ 16)
    (hg : ∀ neu ∈ neus, ∀ g ∈ neu, -(2 ^ 31) ≤ g ∧ g < 2 ^ 31) :
    loadNeurons (be16 neus.length ++ ([0, 0] ++ ((neus.map marshal).flatten ++ rest)))
      = .ok (neus, rest) := by
  unfold loadNeurons
  rw [show be16 neus.length ++ ([0, 0] ++ ((neus.map marshal).flatten ++ rest))
      = (be16 neus.length ++ [0, 0]) ++ ((neus.map marshal).flatten ++ rest) from by
    simp [List.append_assoc]]
  rw [readN_exact 4 _ _ (by simp [be16])]
  dsimp only
  have hbuf : (be16 neus.length ++ [0, 0]).getD 0 0 % 2 ^ 8 * 2 ^ 8
      + (be16 neus.length ++ [0, 0]).getD 1 0 % 2 ^ 8 = neus.length := by
    simp only [be16, List.cons_append, List.nil_append, List.getD,
      List.getElem?_cons_zero, List.getElem?_cons_succ, List.get?_cons_zero,
      List.get?_cons_succ, Option.getD_some]
    omega
  rw [hbuf]
  exact parseNeurons_marshal neus rest hlen hg

theorem newNeuralNet_resort {s a : List Str} {f b : List (List Int)} {net : Neuralnet}
    (h : newNeuralNet s a f b = .ok net) :
    newNeuralNet net.sensors net.actions net.frontNeuronSet net.backNeuronSet
      = .ok net := by
  obtain ⟨rfl, hs0, ha0, hf, hb, hfl, hbl⟩ := newNeuralNet_ok h
  dsimp only
  unfold newNeuralNet
  rw [usort_idem, usort_idem]
  rw [if_neg hs0, if_neg ha0, if_neg (by omega), if_neg (by omega)]
  rw [if_neg (by
    simp only [Bool.not_eq_true', Bool.not_eq_false, List.all_eq_true, beq_iff_eq]
    exact hfl)]
  rw [if_neg (by
    simp only [Bool.not_eq_true', Bool.not_eq_false, List.all_eq_true, beq_iff_eq]
    exact hbl)]

set_option maxRecDepth 8192 in
/-- Counterexample to claim C5 as stated: the net below is validly
constructed (one action, one sensor whose name is the single byte `0x00`),
yet `LoadNet` cannot even parse the bytes `Save` wrote — the NUL byte inside
the name is taken as a terminator, the stream desynchronises and loading
fails with a read error, so no identical net is reproduced. -/
theorem claim_C5_counterexample :
    newNeuralNet [[0]] [[97]] [[1]] [[2]] = .ok ⟨[[97]], [[1]], [[2]], [[0]]⟩ ∧
    loadNet (saveBytes ⟨[[97]], [[1]], [[2]], [[0]]⟩) = .error ("EOF") := by
  constructor <;> decide

/-- Claim C5, amended: for a validly constructed net whose names are
NUL-free byte strings, with fewer than `2 ^ 16` sensors and actions, and
whose neurons have fewer than `2 ^ 16` genes, each within 32-bit range,
loading the bytes written by `Save` reconstructs the identical net —
identical sorted sensors, identical sorted actions, and per-layer neurons
with identical gene vectors. -/
theorem claim_C5_amended (s a : List Str) (f b : List (List Int)) (net : Neuralnet)
    (hnet : newNeuralNet s a f b = .ok net)
    (hsname : ∀ name ∈ s, ∀ c ∈ name, c ≠ 0)
    (haname : ∀ name ∈ a, ∀ c ∈ name, c ≠ 0)
    (hscount : s.length < 2 ^ 16) (hacount : a.length < 2 ^ 16)
    (hneulen : ∀ neu ∈ f ++ b, neu.length < 2 ^ 16)
    (hgenes : ∀ neu ∈ f ++ b, ∀ g ∈ neu, -(2 ^ 31) ≤ g ∧ g < 2 ^ 31) :
    loadNet (saveBytes net) = .ok net := by
  have hback := newNeuralNet_resort hnet
  obtain ⟨rfl, hs0, ha0, hf, hb, hfl, hbl⟩ := newNeuralNet_ok hnet
  dsimp only at hback
  have hsname2 : ∀ name ∈ usort s, ∀ c ∈ name, c ≠ 0 := fun name hmem =>
    hsname name ((usort_mem s name).mp hmem)
  have haname2 : ∀ name ∈ usort a, ∀ c ∈ name, c ≠ 0 := fun name hmem =>
    haname name ((usort_mem a name).mp hmem)
  have hslen : (usort s).length < 2 ^ 16 :=
    lt_of_le_of_lt (usort_length_le s) hscount
  have halen : (usort a).length < 2 ^ 16 :=
    lt_of_le_of_lt (usort_length_le a) hacount
  have hflen : ∀ neu ∈ f, neu.length < 2 ^ 16 := fun x hx =>
    hneulen x (List.mem_append_left _ hx)
  have hblen : ∀ neu ∈ b, neu.length < 2 ^ 16 := fun x hx =>
    hneulen x (List.mem_append_right _ hx)
  have hfg : ∀ neu ∈ f, ∀ g ∈ neu, -(2 ^ 31) ≤ g ∧ g < 2 ^ 31 := fun x hx =>
    hgenes x (List.mem_append_left _ hx)
  have hbg : ∀ neu ∈ b, ∀ g ∈ neu, -(2 ^ 31) ≤ g ∧ g < 2 ^ 31 := fun x hx =>
    hgenes x (List.mem_append_right _ hx)
  unfold loadNet
  have hshape : saveBytes ⟨usort a, f, b, usort s⟩
      = (be16 (saveBody ⟨usort a, f, b, usort s⟩).length ++ [0, 0]) ++
        (be16 (usort s).length ++ ([0, 0] ++ (encodeNames (usort s) ++ (be16 (usort a).length ++ ([0, 0] ++ (encodeNames (usort a) ++ (be16 f.length ++ ([0, 0] ++ ((f.map marshal).flatten ++ (be16 b.length ++ ([0, 0] ++ ((b.map marshal).flatten ++ [0, 0, 0, 0])))))))))))) := by
    simp only [saveBytes, saveBody, List.append_assoc]
  rw [hshape]
  rw [readN_exact 4 _ _ (by simp [be16])]
  dsimp only
  rw [loadStrings_encode (usort s) _ hslen hsname2]
  dsimp only
  rw [loadStrings_encode (usort a) _ halen haname2]
  dsimp only
  rw [loadNeurons_marshal f _ (by omega) hflen hfg]
  dsimp only
  rw [loadNeurons_marshal b _ (by omega) hblen hbg]
  dsimp only
  exact hback

set_option maxRecDepth 8192 in
/-- Witness for the amended claim C5, at a one-sensor one-action net. -/
theorem claim_C5_amended_witness :
    loadNet (saveBytes ⟨[[98]], [[1]], [[2]], [[97]]⟩) =
      .ok ⟨[[98]], [[1]], [[2]], [[97]]⟩ :=
  claim_C5_amended [[97]] [[98]] [[1]] [[2]] ⟨[[98]], [[1]], [[2]], [[97]]⟩
    (by decide) (by decide) (by decide) (by decide) (by decide) (by decide) (by decide)
